import Mathlib

/-!
Shallow embedding of the streak and scoring engine of the habit-garden
application (`app/services/scoring.py`) together with the due-schedule
computation `habits_due_on` (`app/models/habits.py`), and proofs of the
specification claims about them.

Modelling conventions:
* calendar dates are ISO `YYYY-MM-DD` strings, compared lexicographically,
  exactly as Python's `sorted` compares them;
* a completion record `{'habit_id': i, 'date': d}` is a `Completion`;
* the Python dict `due_by_date` is an association list `List (String × Finset ℤ)`
  whose keys are unique (a `Nodup` hypothesis where a claim needs it);
* `date.today()` is an explicit `today : String` parameter, since the engine's
  only impurity is reading the clock once in `current_streak`;
* Python `int` is `ℤ`, the habit-id sets are `Finset ℤ`.
-/

namespace HabitGarden

/-- One completion record `{'habit_id': ..., 'date': ...}`. -/
structure Completion where
  habit_id : ℤ
  date : String
deriving DecidableEq, Repr

/-- The `due_by_date` mapping: calendar date → set of habit ids due that date. -/
abbrev DueByDate := List (String × Finset ℤ)

/-- `_index_comps_by_date`: the date-indexed view of the completion log.
`by_date[d]` is the set of `int(habit_id)` of the records with date `d`,
and the empty set for a date with no record (`defaultdict(set)` / `.get(d, set())`). -/
def indexCompsByDate (all_completions : List Completion) (d : String) : Finset ℤ :=
  ((all_completions.filter (fun c => c.date = d)).map Completion.habit_id).toFinset

/-- `due_by_date.get(d, set())`: the due-set of `d`, empty when `d` is not a key. -/
def dueGet (due : DueByDate) (d : String) : Finset ℤ :=
  match due.find? (fun p => p.1 = d) with
  | some p => p.2
  | none => ∅

/-- `due_by_date.keys()`. -/
def dueKeys (due : DueByDate) : List String := due.map Prod.fst

/-- The order in which Python's `sorted` ranks the ISO date strings:
lexicographic comparison of the character sequences. -/
def dateLE (s t : String) : Prop := s.data ≤ t.data

instance : DecidableRel dateLE := fun s t =>
  inferInstanceAs (Decidable (s.data ≤ t.data))

instance : IsTotal String dateLE := ⟨fun s t => le_total s.data t.data⟩

instance : IsTrans String dateLE := ⟨fun _ _ _ h h' => le_trans h h'⟩

instance : IsAntisymm String dateLE :=
  ⟨fun s t h h' => by cases s; cases t; exact congrArg String.mk (le_antisymm h h')⟩

instance : IsRefl String dateLE := ⟨fun s => le_refl s.data⟩

/-- The backward walk of `current_streak`: over the descending date list,
a date with an empty due-set is skipped, a fully completed due-set counts one
and the walk continues, anything else stops the walk. -/
def currentWalk (comps dues : String → Finset ℤ) : List String → ℕ
  | [] => 0
  | d :: rest =>
    if dues d = ∅ then currentWalk comps dues rest
    else if dues d ⊆ comps d then currentWalk comps dues rest + 1
    else 0

/-- `sorted(set([*due_by_date.keys(), today]), reverse=True)`. -/
def datesDesc (today : String) (due : DueByDate) : List String :=
  ((dueKeys due ++ [today]).dedup.insertionSort dateLE).reverse

/-- `current_streak(all_completions, due_by_date)` with `_today_str()` made an
explicit parameter. -/
def current_streak (today : String) (all_completions : List Completion)
    (due : DueByDate) : ℕ :=
  if due = [] then 0
  else currentWalk (indexCompsByDate all_completions) (dueGet due) (datesDesc today due)

/-- One step of the `longest_streak` loop on the state `(best, cur)`. -/
def longestStep (comps dues : String → Finset ℤ) (bc : ℕ × ℕ) (d : String) : ℕ × ℕ :=
  if dues d = ∅ then bc
  else if dues d ⊆ comps d then (max bc.1 (bc.2 + 1), bc.2 + 1)
  else (bc.1, 0)

/-- `longest_streak(all_completions, due_by_date)`: the ascending pass over the
sorted keys, returning the final `best`. -/
def longest_streak (all_completions : List Completion) (due : DueByDate) : ℕ :=
  if due = [] then 0
  else (((dueKeys due).insertionSort dateLE).foldl
    (longestStep (indexCompsByDate all_completions) (dueGet due)) (0, 0)).1

/-- `currency(total_completions, cur_streak)`. -/
def currency (total_completions cur_streak : ℤ) : ℤ :=
  total_completions + max 0 (cur_streak - 1)

/-- The stats payload returned by `summarize_stats` (the keys the UI expects). -/
structure StatsSummary where
  total_habits : ℤ
  total_completions : ℤ
  current_streak : ℕ
  longest_streak : ℕ
  currency : ℤ
deriving DecidableEq, Repr

/-- `summarize_stats(total_active_habits, total_completions, all_completions, due_by_date)`. -/
def summarize_stats (today : String) (total_active_habits total_completions : ℤ)
    (all_completions : List Completion) (due : DueByDate) : StatsSummary :=
  let cur := current_streak today all_completions due
  let long := longest_streak all_completions due
  let coins := currency total_completions (cur : ℤ)
  { total_habits := total_active_habits
    total_completions := total_completions
    current_streak := cur
    longest_streak := long
    currency := coins }

/-- One row of the `habits` table as read by `habits_due_on`
(`SELECT id, frequency, weekly_mask ... WHERE archived_at IS NULL` is modelled by
keeping `archived_at` in the row and filtering in the function). -/
structure HabitRow where
  id : ℤ
  frequency : String
  weekly_mask : Option String
  archived_at : Option String
deriving DecidableEq, Repr

/-- The per-row due test of `habits_due_on`: `daily` is always due; `custom` is
due when `mask = weekly_mask or "0000000"` has length 7 and `mask[weekday] == "1"`;
any other frequency is not due. -/
def rowDue (weekday : Fin 7) (r : HabitRow) : Bool :=
  if r.frequency = "daily" then true
  else if r.frequency = "custom" then
    let mask := r.weekly_mask.getD "0000000"
    decide (mask.length = 7) && decide (mask.data.getD weekday.val '0' = '1')
  else false

/-- `habits_due_on(day)`: the set of ids of the non-archived habits due on the
day, where `weekday = d.weekday()` (Monday = 0). -/
def habits_due_on (weekday : Fin 7) (rows : List HabitRow) : Finset ℤ :=
  (((rows.filter (fun r => r.archived_at = none)).filter (rowDue weekday)).map
    HabitRow.id).toFinset

/-! ### Helper predicates and lemmas about the two streak loops -/

/-- The due-set of `d` is non-empty: the dates the two streak loops do not skip. -/
def neDue (dues : String → Finset ℤ) (d : String) : Bool := decide (dues d ≠ ∅)

/-- The due-set of `d` is fully completed on `d`. -/
def satDue (comps dues : String → Finset ℤ) (d : String) : Bool :=
  decide (dues d ⊆ comps d)

theorem dueGet_eq_empty_of_not_mem {due : DueByDate} {d : String}
    (h : d ∉ dueKeys due) : dueGet due d = ∅ := by
  unfold dueGet
  have hf : due.find? (fun p => p.1 = d) = none := by
    rw [List.find?_eq_none]
    intro p hp hpd
    exact h (List.mem_map.mpr ⟨p, hp, by simpa using hpd⟩)
  rw [hf]

theorem mem_dueKeys_of_dueGet_ne {due : DueByDate} {d : String}
    (h : dueGet due d ≠ ∅) : d ∈ dueKeys due := by
  by_contra hd
  exact h (dueGet_eq_empty_of_not_mem hd)

/-- The backward walk counts the leading fully-completed due days of its date
list, the empty-due dates being skipped. -/
theorem currentWalk_eq_takeWhile (comps dues : String → Finset ℤ) (l : List String) :
    currentWalk comps dues l =
      ((l.filter (neDue dues)).takeWhile (satDue comps dues)).length := by
  induction l with
  | nil => rfl
  | cons d rest ih =>
    by_cases h : dues d = ∅
    · have hb : neDue dues d = false := by simp [neDue, h]
      simp [currentWalk, h, hb, ih]
    · have hb : neDue dues d = true := by simp [neDue, h]
      by_cases hs : dues d ⊆ comps d
      · have hsb : satDue comps dues d = true := by simp [satDue, hs]
        simp [currentWalk, h, hs, hb, hsb, List.takeWhile_cons, ih]
      · have hsb : satDue comps dues d = false := by simp [satDue, hs]
        simp [currentWalk, h, hs, hb, hsb, List.takeWhile_cons]

/-- Empty-due dates are no-ops of the `longest_streak` loop: folding over the
filtered date list gives the same state. -/
theorem foldl_longestStep_filter (comps dues : String → Finset ℤ)
    (l : List String) (bc : ℕ × ℕ) :
    (l.filter (neDue dues)).foldl (longestStep comps dues) bc =
      l.foldl (longestStep comps dues) bc := by
  induction l generalizing bc with
  | nil => rfl
  | cons d rest ih =>
    by_cases h : dues d = ∅
    · have hb : neDue dues d = false := by simp [neDue, h]
      have hstep : longestStep comps dues bc d = bc := by simp [longestStep, h]
      simp [hb, hstep, ih]
    · have hb : neDue dues d = true := by simp [neDue, h]
      simp [hb, ih]

/-- Invariant of the `longest_streak` fold on a list of non-empty due dates:
the trailing fully-completed run is at most `cur`, and `cur` is at most `best`. -/
theorem takeWhile_reverse_le_foldl (comps dues : String → Finset ℤ)
    (l : List String) (hne : ∀ d ∈ l, dues d ≠ ∅) :
    (l.reverse.takeWhile (satDue comps dues)).length ≤
        (l.foldl (longestStep comps dues) (0, 0)).2 ∧
      (l.foldl (longestStep comps dues) (0, 0)).2 ≤
        (l.foldl (longestStep comps dues) (0, 0)).1 := by
  induction l using List.reverseRecOn with
  | nil => simp
  | append_singleton l d ih =>
    have hd : dues d ≠ ∅ := hne d (by simp)
    have hl : ∀ x ∈ l, dues x ≠ ∅ := fun x hx => hne x (by simp [hx])
    obtain ⟨ih1, ih2⟩ := ih hl
    simp only [List.foldl_append, List.foldl_cons, List.foldl_nil, List.reverse_append,
      List.reverse_singleton, List.singleton_append]
    by_cases hs : dues d ⊆ comps d
    · have hsb : satDue comps dues d = true := by simp [satDue, hs]
      have hstep : longestStep comps dues (l.foldl (longestStep comps dues) (0, 0)) d =
          (max (l.foldl (longestStep comps dues) (0, 0)).1
            ((l.foldl (longestStep comps dues) (0, 0)).2 + 1),
            (l.foldl (longestStep comps dues) (0, 0)).2 + 1) := by
        simp [longestStep, hd, hs]
      rw [hstep]
      constructor
      · simpa [List.takeWhile_cons, hsb] using Nat.succ_le_succ ih1
      · exact le_max_right _ _
    · have hsb : satDue comps dues d = false := by simp [satDue, hs]
      have hstep : longestStep comps dues (l.foldl (longestStep comps dues) (0, 0)) d =
          ((l.foldl (longestStep comps dues) (0, 0)).1, 0) := by
        simp [longestStep, hd, hs]
      rw [hstep]
      simp [List.takeWhile_cons, hsb]

/-- Two duplicate-free key lists with the same members among the kept dates have
the same sorted-and-filtered date list. -/
theorem filter_insertionSort_congr (p : String → Bool) {l₁ l₂ : List String}
    (h₁ : l₁.Nodup) (h₂ : l₂.Nodup)
    (hm : ∀ x, p x = true → (x ∈ l₁ ↔ x ∈ l₂)) :
    (l₁.insertionSort dateLE).filter p = (l₂.insertionSort dateLE).filter p := by
  have hperm : List.Perm ((l₁.insertionSort dateLE).filter p)
      ((l₂.insertionSort dateLE).filter p) := by
    refine (List.perm_ext_iff_of_nodup ?_ ?_).mpr ?_
    · exact ((List.perm_insertionSort dateLE l₁).nodup_iff.mpr h₁).filter p
    · exact ((List.perm_insertionSort dateLE l₂).nodup_iff.mpr h₂).filter p
    · intro a
      simp only [List.mem_filter, List.mem_insertionSort]
      constructor
      · rintro ⟨ha, hp2⟩
        exact ⟨(hm a hp2).mp ha, hp2⟩
      · rintro ⟨ha, hp2⟩
        exact ⟨(hm a hp2).mpr ha, hp2⟩
  exact List.eq_of_perm_of_sorted hperm
    ((List.sorted_insertionSort dateLE l₁).filter p)
    ((List.sorted_insertionSort dateLE l₂).filter p)

/-- After dropping the empty-due dates, the backward date list of
`current_streak` is exactly the reversed ascending key scan of `longest_streak`. -/
theorem filter_datesDesc (today : String) (due : DueByDate)
    (h : (dueKeys due).Nodup) :
    (datesDesc today due).filter (neDue (dueGet due)) =
      (((dueKeys due).insertionSort dateLE).filter (neDue (dueGet due))).reverse := by
  unfold datesDesc
  rw [List.filter_reverse]
  congr 1
  apply filter_insertionSort_congr _ (List.nodup_dedup _) h
  intro x hx
  simp only [List.mem_dedup, List.mem_append, List.mem_singleton]
  constructor
  · rintro (hk | rfl)
    · exact hk
    · exact mem_dueKeys_of_dueGet_ne (by simpa [neDue] using hx)
  · intro hk
    exact Or.inl hk

theorem dueGet_cons {due : DueByDate} {d x : String} {s : Finset ℤ} :
    dueGet ((d, s) :: due) x = if d = x then s else dueGet due x := by
  by_cases hx : d = x
  · simp [dueGet, List.find?_cons_of_pos, hx]
  · rw [if_neg hx]
    unfold dueGet
    rw [List.find?_cons_of_neg _ (by simpa using hx)]

theorem dueGet_cons_empty {due : DueByDate} {d : String} (hd : d ∉ dueKeys due) :
    dueGet ((d, (∅ : Finset ℤ)) :: due) = dueGet due := by
  funext x
  rw [dueGet_cons]
  by_cases hx : d = x
  · rw [if_pos hx]
    subst hx
    exact (dueGet_eq_empty_of_not_mem hd).symm
  · rw [if_neg hx]

/-- `current_streak` without the empty-schedule guard: for an empty schedule
the filtered date list is empty, so the formula also gives `0`. -/
theorem current_streak_formula (today : String) (cs : List Completion)
    (due : DueByDate) :
    current_streak today cs due =
      (((datesDesc today due).filter (neDue (dueGet due))).takeWhile
        (satDue (indexCompsByDate cs) (dueGet due))).length := by
  unfold current_streak
  by_cases hdue : due = []
  · subst hdue
    rw [if_pos rfl]
    have hx : neDue (dueGet ([] : DueByDate)) = fun _ => false := by
      funext x
      simp [neDue, dueGet]
    rw [hx]
    simp
  · rw [if_neg hdue, currentWalk_eq_takeWhile]

/-- `longest_streak` without the empty-schedule guard, over the filtered
ascending key list. -/
theorem longest_streak_formula (cs : List Completion) (due : DueByDate) :
    longest_streak cs due =
      ((((dueKeys due).insertionSort dateLE).filter (neDue (dueGet due))).foldl
        (longestStep (indexCompsByDate cs) (dueGet due)) (0, 0)).1 := by
  unfold longest_streak
  by_cases hdue : due = []
  · subst hdue
    simp [dueKeys]
  · rw [if_neg hdue, foldl_longestStep_filter]

/-- Scenario A inputs: three consecutive due days for habit 1, completed on the
first two only. -/
def scenarioADue : DueByDate :=
  [("2024-01-01", {1}), ("2024-01-02", {1}), ("2024-01-03", {1})]

def scenarioAComps : List Completion :=
  [⟨1, "2024-01-01"⟩, ⟨1, "2024-01-02"⟩]

/-- Claim C1: on Scenario A (three due days for habit 1, completed on the first
two, today the third), `current_streak` is 0 — today's non-empty incomplete
due-set breaks the streak immediately — and `longest_streak` is 2. -/
theorem scenarioA_streaks :
    current_streak "2024-01-03" scenarioAComps scenarioADue = 0 ∧
      longest_streak scenarioAComps scenarioADue = 2 := by
  constructor <;> decide

/-- Claim C3: with an empty schedule both streaks are 0, whatever the
completion log contains. -/
theorem streaks_of_empty_schedule (today : String) (cs : List Completion) :
    current_streak today cs ([] : DueByDate) = 0 ∧
      longest_streak cs ([] : DueByDate) = 0 :=
  ⟨rfl, rfl⟩

/-- Claim C4: a date with an empty due-set is neutral: adding the entry
`d ↦ ∅` to the schedule (equivalently, removing such an entry) changes neither
`current_streak` nor `longest_streak`. -/
theorem streaks_insert_empty_due (today : String) (cs : List Completion)
    (due : DueByDate) (d : String) (hd : d ∉ dueKeys due)
    (h : (dueKeys due).Nodup) :
    current_streak today cs ((d, (∅ : Finset ℤ)) :: due) =
        current_streak today cs due ∧
      longest_streak cs ((d, (∅ : Finset ℤ)) :: due) = longest_streak cs due := by
  have hget : dueGet ((d, (∅ : Finset ℤ)) :: due) = dueGet due := dueGet_cons_empty hd
  have hEmpty : dueGet due d = ∅ := dueGet_eq_empty_of_not_mem hd
  have hp : neDue (dueGet due) d = false := by simp [neDue, hEmpty]
  have hkeys : dueKeys ((d, (∅ : Finset ℤ)) :: due) = d :: dueKeys due := rfl
  constructor
  · rw [current_streak_formula, current_streak_formula, hget]
    have hlist : (datesDesc today ((d, (∅ : Finset ℤ)) :: due)).filter
        (neDue (dueGet due)) =
        (datesDesc today due).filter (neDue (dueGet due)) := by
      unfold datesDesc
      rw [List.filter_reverse, List.filter_reverse]
      congr 1
      apply filter_insertionSort_congr _ (List.nodup_dedup _) (List.nodup_dedup _)
      intro x hx
      simp only [List.mem_dedup, hkeys, List.cons_append, List.mem_cons]
      constructor
      · rintro (rfl | hmem)
        · rw [hp] at hx
          cases hx
        · exact hmem
      · intro hmem
        exact Or.inr hmem
    rw [hlist]
  · rw [longest_streak_formula, longest_streak_formula, hget]
    have hlist : ((dueKeys ((d, (∅ : Finset ℤ)) :: due)).insertionSort dateLE).filter
        (neDue (dueGet due)) =
        ((dueKeys due).insertionSort dateLE).filter (neDue (dueGet due)) := by
      rw [hkeys]
      apply filter_insertionSort_congr _ (List.nodup_cons.mpr ⟨hd, h⟩) h
      intro x hx
      simp only [List.mem_cons]
      constructor
      · rintro (rfl | hmem)
        · rw [hp] at hx
          cases hx
        · exact hmem
      · intro hmem
        exact Or.inr hmem
    rw [hlist]

/-- Witness for C4 at a concrete input: inserting `2024-01-04 ↦ ∅` into the
Scenario A schedule changes neither streak. -/
theorem streaks_insert_empty_due_witness :
    ("2024-01-04" ∉ dueKeys scenarioADue ∧ (dueKeys scenarioADue).Nodup) ∧
      (current_streak "2024-01-03" scenarioAComps
          (("2024-01-04", (∅ : Finset ℤ)) :: scenarioADue) =
          current_streak "2024-01-03" scenarioAComps scenarioADue ∧
        longest_streak scenarioAComps
            (("2024-01-04", (∅ : Finset ℤ)) :: scenarioADue) =
          longest_streak scenarioAComps scenarioADue) :=
  ⟨⟨by decide, by decide⟩,
    streaks_insert_empty_due "2024-01-03" scenarioAComps scenarioADue "2024-01-04"
      (by decide) (by decide)⟩

/-- Claim C7: with the same `today`, the longest streak is at least the current
streak: the backward walk counts exactly the trailing run of fully-satisfied
non-empty due days, which the ascending pass of `longest_streak` also scans. -/
theorem current_streak_le_longest_streak (today : String) (cs : List Completion)
    (due : DueByDate) (h : (dueKeys due).Nodup) :
    current_streak today cs due ≤ longest_streak cs due := by
  rw [current_streak_formula, longest_streak_formula, filter_datesDesc today due h]
  have hne : ∀ x ∈ ((dueKeys due).insertionSort dateLE).filter
      (neDue (dueGet due)), dueGet due x ≠ ∅ := by
    intro x hx
    have := (List.mem_filter.mp hx).2
    simpa [neDue] using this
  obtain ⟨h1, h2⟩ :=
    takeWhile_reverse_le_foldl (indexCompsByDate cs) (dueGet due) _ hne
  exact le_trans h1 h2

/-- Witness for C7 at a concrete input: on Scenario A the current streak 0 is
at most the longest streak 2. -/
theorem current_streak_le_longest_streak_witness :
    (dueKeys scenarioADue).Nodup ∧
      current_streak "2024-01-03" scenarioAComps scenarioADue ≤
        longest_streak scenarioAComps scenarioADue :=
  ⟨by decide,
    current_streak_le_longest_streak "2024-01-03" scenarioAComps scenarioADue
      (by decide)⟩

/-- Claim C2: `summarize_stats` is deterministic: two calls with identical
inputs (including the same reading of the clock) return identical summary
records. In this embedding the engine is a pure function, so the property is
congruence. -/
theorem summarize_stats_deterministic (t₁ t₂ : String) (a₁ a₂ c₁ c₂ : ℤ)
    (l₁ l₂ : List Completion) (d₁ d₂ : DueByDate)
    (ht : t₁ = t₂) (ha : a₁ = a₂) (hc : c₁ = c₂) (hl : l₁ = l₂) (hd : d₁ = d₂) :
    summarize_stats t₁ a₁ c₁ l₁ d₁ = summarize_stats t₂ a₂ c₂ l₂ d₂ := by
  subst ht
  subst ha
  subst hc
  subst hl
  subst hd
  rfl

/-- Witness for C2: two identical calls on the Scenario A data agree. -/
theorem summarize_stats_deterministic_witness :
    summarize_stats "2024-01-03" 1 2 scenarioAComps scenarioADue =
      summarize_stats "2024-01-03" 1 2 scenarioAComps scenarioADue :=
  summarize_stats_deterministic "2024-01-03" "2024-01-03" 1 1 2 2 scenarioAComps
    scenarioAComps scenarioADue scenarioADue rfl rfl rfl rfl rfl

/-- Claim C5: three chronologically ordered due days, the outer two fully
completed and the middle one not: the unsatisfied middle day resets the
running counter, so the longest streak is 1, not 2. -/
theorem longest_streak_gap_resets (cs : List Completion) (d1 d2 d3 : String)
    (s1 s2 s3 : Finset ℤ)
    (h12 : d1.data < d2.data) (h23 : d2.data < d3.data)
    (hs1 : s1 ≠ ∅) (hs2 : s2 ≠ ∅) (hs3 : s3 ≠ ∅)
    (hc1 : s1 ⊆ indexCompsByDate cs d1)
    (hc2 : ¬s2 ⊆ indexCompsByDate cs d2)
    (hc3 : s3 ⊆ indexCompsByDate cs d3) :
    longest_streak cs [(d1, s1), (d2, s2), (d3, s3)] = 1 := by
  have hne12 : d1 ≠ d2 := fun h => absurd (h ▸ h12) (lt_irrefl _)
  have hne23 : d2 ≠ d3 := fun h => absurd (h ▸ h23) (lt_irrefl _)
  have hne13 : d1 ≠ d3 := fun h => absurd (h ▸ lt_trans h12 h23) (lt_irrefl _)
  have hle12 : dateLE d1 d2 := le_of_lt h12
  have hle23 : dateLE d2 d3 := le_of_lt h23
  have hsort : ([d1, d2, d3] : List String).insertionSort dateLE = [d1, d2, d3] := by
    show List.orderedInsert dateLE d1
      (List.orderedInsert dateLE d2 (List.orderedInsert dateLE d3 [])) = [d1, d2, d3]
    rw [List.orderedInsert_nil, List.orderedInsert_of_le _ _ hle23,
      List.orderedInsert_of_le _ _ hle12]
  have hget1 : dueGet [(d1, s1), (d2, s2), (d3, s3)] d1 = s1 := by
    rw [dueGet_cons, if_pos rfl]
  have hget2 : dueGet [(d1, s1), (d2, s2), (d3, s3)] d2 = s2 := by
    rw [dueGet_cons, if_neg hne12, dueGet_cons, if_pos rfl]
  have hget3 : dueGet [(d1, s1), (d2, s2), (d3, s3)] d3 = s3 := by
    rw [dueGet_cons, if_neg hne13, dueGet_cons, if_neg hne23, dueGet_cons, if_pos rfl]
  have hst1 : longestStep (indexCompsByDate cs) (dueGet [(d1, s1), (d2, s2), (d3, s3)])
      (0, 0) d1 = (1, 1) := by
    simp [longestStep, hget1, hs1, hc1]
  have hst2 : longestStep (indexCompsByDate cs) (dueGet [(d1, s1), (d2, s2), (d3, s3)])
      (1, 1) d2 = (1, 0) := by
    simp [longestStep, hget2, hs2, hc2]
  have hst3 : longestStep (indexCompsByDate cs) (dueGet [(d1, s1), (d2, s2), (d3, s3)])
      (1, 0) d3 = (1, 1) := by
    simp [longestStep, hget3, hs3, hc3]
  unfold longest_streak
  rw [if_neg (by simp : ¬([(d1, s1), (d2, s2), (d3, s3)] : DueByDate) = [])]
  have hkeys : dueKeys [(d1, s1), (d2, s2), (d3, s3)] = [d1, d2, d3] := rfl
  rw [hkeys, hsort]
  simp only [List.foldl_cons, List.foldl_nil]
  rw [hst1, hst2, hst3]

/-- Scenario D inputs: habit 1 completed on the first and third day only. -/
def scenarioDComps : List Completion :=
  [⟨1, "2024-01-01"⟩, ⟨1, "2024-01-03"⟩]

/-- Witness for C5 at a concrete input: the incomplete middle day of Scenario D
caps the longest streak at 1. -/
theorem longest_streak_gap_resets_witness :
    ("2024-01-01".data < "2024-01-02".data ∧ "2024-01-02".data < "2024-01-03".data ∧
        ¬({1} : Finset ℤ) ⊆ indexCompsByDate scenarioDComps "2024-01-02" ∧
        ({1} : Finset ℤ) ⊆ indexCompsByDate scenarioDComps "2024-01-01" ∧
        ({1} : Finset ℤ) ⊆ indexCompsByDate scenarioDComps "2024-01-03") ∧
      longest_streak scenarioDComps
        [("2024-01-01", {1}), ("2024-01-02", {1}), ("2024-01-03", {1})] = 1 :=
  ⟨⟨by decide, by decide, by decide, by decide, by decide⟩,
    longest_streak_gap_resets scenarioDComps "2024-01-01" "2024-01-02" "2024-01-03"
      {1} {1} {1} (by decide) (by decide) (by decide) (by decide) (by decide)
      (by decide) (by decide) (by decide)⟩

/-- Claim C6: for non-negative `total_completions` and streak, `currency` is
`total_completions + max 0 (streak − 1)` and is non-negative. -/
theorem currency_spec (tc s : ℤ) (h1 : 0 ≤ tc) (_h2 : 0 ≤ s) :
    currency tc s = tc + max 0 (s - 1) ∧ 0 ≤ currency tc s :=
  ⟨rfl, add_nonneg h1 (le_max_left 0 (s - 1))⟩

/-- Witness for C6 at the concrete input of spec Scenario B
(`3 + max 0 (3 − 1) = 5`). -/
theorem currency_spec_witness :
    ((0 : ℤ) ≤ 3 ∧ (0 : ℤ) ≤ 3) ∧
      (currency 3 3 = 3 + max 0 (3 - 1) ∧ 0 ≤ currency 3 3) :=
  ⟨⟨by decide, by decide⟩, currency_spec 3 3 (by decide) (by decide)⟩

/-- Claim C10: the two precomputed scalars are passed through unchanged into
the summary record, whatever the completion log and schedule are. -/
theorem summarize_stats_passthrough (today : String) (tah tc : ℤ)
    (cs : List Completion) (due : DueByDate) :
    (summarize_stats today tah tc cs due).total_habits = tah ∧
      (summarize_stats today tah tc cs due).total_completions = tc :=
  ⟨rfl, rfl⟩

/-! ### Totality of the engine (claim C8)

The only operation of the engine that could raise on well-formed input is the
dictionary indexing `due_by_date[d]` inside `longest_streak` (everything else
uses defaulted lookups, sorting and arithmetic). The `E`-variants below model
that indexing explicitly as an `Option`, and the totality theorem shows the
computation always succeeds with the complete summary record. -/

/-- Dictionary indexing `due_by_date[d]`: `none` models a `KeyError`. -/
def dueGetE (due : DueByDate) (d : String) : Option (Finset ℤ) :=
  (due.find? (fun p => p.1 = d)).map Prod.snd

/-- The `longest_streak` loop step with the indexing failure propagated. -/
def longestStepE (comps : String → Finset ℤ) (due : DueByDate)
    (acc : Option (ℕ × ℕ)) (d : String) : Option (ℕ × ℕ) :=
  acc.bind fun bc => (dueGetE due d).map fun dueSet =>
    if dueSet = ∅ then bc
    else if dueSet ⊆ comps d then (max bc.1 (bc.2 + 1), bc.2 + 1)
    else (bc.1, 0)

/-- `longest_streak` with the dictionary indexing explicit. -/
def longest_streakE (cs : List Completion) (due : DueByDate) : Option ℕ :=
  if due = [] then some 0
  else (((dueKeys due).insertionSort dateLE).foldl
    (longestStepE (indexCompsByDate cs) due) (some (0, 0))).map Prod.fst

/-- `summarize_stats` with the fallible sub-operation explicit. -/
def summarize_statsE (today : String) (total_active_habits total_completions : ℤ)
    (cs : List Completion) (due : DueByDate) : Option StatsSummary :=
  (longest_streakE cs due).map fun long =>
    let cur := current_streak today cs due
    { total_habits := total_active_habits
      total_completions := total_completions
      current_streak := cur
      longest_streak := long
      currency := currency total_completions (cur : ℤ) }

theorem dueGetE_eq_some_of_mem {due : DueByDate} {d : String}
    (h : d ∈ dueKeys due) : dueGetE due d = some (dueGet due d) := by
  cases hf : due.find? (fun p => p.1 = d) with
  | none =>
    exfalso
    obtain ⟨p, hp, hpd⟩ := List.mem_map.mp h
    have := List.find?_eq_none.mp hf p hp
    simp [hpd] at this
  | some p =>
    simp [dueGetE, dueGet, hf]

theorem foldl_longestStepE (comps : String → Finset ℤ) (due : DueByDate)
    (l : List String) (hl : ∀ d ∈ l, d ∈ dueKeys due) (bc : ℕ × ℕ) :
    l.foldl (longestStepE comps due) (some bc) =
      some (l.foldl (longestStep comps (dueGet due)) bc) := by
  induction l generalizing bc with
  | nil => rfl
  | cons d rest ih =>
    have hd : d ∈ dueKeys due := hl d (List.mem_cons_self d rest)
    have hrest : ∀ x ∈ rest, x ∈ dueKeys due := fun x hx =>
      hl x (List.mem_cons_of_mem d hx)
    have hstep : longestStepE comps due (some bc) d =
        some (longestStep comps (dueGet due) bc d) := by
      simp [longestStepE, dueGetE_eq_some_of_mem hd, longestStep]
    rw [List.foldl_cons, List.foldl_cons, hstep, ih hrest]

/-- Claim C8: on well-formed inputs the engine is total. With the single
fallible sub-operation modelled explicitly, `summarize_stats` always succeeds
and returns the complete summary record — it never fails and never returns a
partial result. -/
theorem summarize_statsE_total (today : String) (tah tc : ℤ)
    (cs : List Completion) (due : DueByDate) :
    summarize_statsE today tah tc cs due =
      some (summarize_stats today tah tc cs due) := by
  have hlong : longest_streakE cs due = some (longest_streak cs due) := by
    unfold longest_streakE longest_streak
    by_cases hdue : due = []
    · rw [if_pos hdue, if_pos hdue]
    · rw [if_neg hdue, if_neg hdue,
        foldl_longestStepE _ _ _ (fun d hd => (List.mem_insertionSort dateLE).mp hd)]
      rfl
  unfold summarize_statsE summarize_stats
  rw [hlong]
  rfl

/-! ### Malformed weekly masks (claim C9) -/

theorem getD_zeros (n : ℕ) : "0000000".data.getD n '0' = '0' := by
  rcases n with _ | _ | _ | _ | _ | _ | _ | n <;> rfl

/-- Claim C9: a non-archived habit with frequency `custom` whose weekly mask is
NULL or not exactly 7 characters long is never in the due set returned by
`habits_due_on`: a malformed mask means "not due", not a failure. -/
theorem habits_due_on_malformed_mask (w : Fin 7) (rows : List HabitRow)
    (r : HabitRow) (hmem : r ∈ rows) (hids : (rows.map HabitRow.id).Nodup)
    (_harch : r.archived_at = none) (hfreq : r.frequency = "custom")
    (hmask : r.weekly_mask = none ∨ ∃ s, r.weekly_mask = some s ∧ s.length ≠ 7) :
    r.id ∉ habits_due_on w rows := by
  intro hin
  unfold habits_due_on at hin
  rw [List.mem_toFinset] at hin
  obtain ⟨r', hr', hid⟩ := List.mem_map.mp hin
  rw [List.mem_filter] at hr'
  obtain ⟨hr'1, hdue⟩ := hr'
  rw [List.mem_filter] at hr'1
  obtain ⟨hr'mem, _⟩ := hr'1
  have hrr : r' = r := List.inj_on_of_nodup_map hids hr'mem hmem hid
  rw [hrr] at hdue
  have hfalse : rowDue w r = false := by
    rcases hmask with hnone | ⟨s, hsome, hlen⟩
    · unfold rowDue
      rw [hfreq, hnone, if_neg (by decide), if_pos rfl]
      show (decide (("0000000" : String).length = 7) &&
        decide (("0000000" : String).data.getD w.val '0' = '1')) = false
      rw [getD_zeros]
      decide
    · unfold rowDue
      rw [hfreq, hsome, if_neg (by decide), if_pos rfl]
      show (decide (s.length = 7) && decide (s.data.getD w.val '0' = '1')) = false
      rw [decide_eq_false hlen, Bool.false_and]
  rw [hfalse] at hdue
  cases hdue

/-- A habit row with a malformed (3-character) custom mask. -/
def malformedRow : HabitRow := ⟨1, "custom", some "111", none⟩

/-- Witness for C9 at a concrete input: the habit with mask `"111"` is not due
on Monday. -/
theorem habits_due_on_malformed_mask_witness :
    (malformedRow ∈ [malformedRow] ∧ ([malformedRow].map HabitRow.id).Nodup ∧
        malformedRow.archived_at = none ∧ malformedRow.frequency = "custom" ∧
        ("111" : String).length ≠ 7) ∧
      malformedRow.id ∉ habits_due_on (0 : Fin 7) [malformedRow] :=
  ⟨⟨by decide, by decide, rfl, rfl, by decide⟩,
    habits_due_on_malformed_mask (0 : Fin 7) [malformedRow] malformedRow
      (by decide) (by decide) rfl rfl (Or.inr ⟨"111", rfl, by decide⟩)⟩

end HabitGarden
